import Mathlib

/-!
# Verification of the `compression` HTTP middleware (src/index.js)

Shallow embedding of the response-compression middleware: the pure
negotiation helpers (`shouldCompress`, `shouldTransform`, the threshold
check, encoding selection, brotli configuration) and the stateful stream
interceptor (`write` / `end` / `on` and the deferred header-time decision
`onRespHeaders`) are translated into executable definitions, and the
claims of the spec are proved about them.

External collaborators (the `vary` helper, the `accepts` negotiation
helper, the underlying transport and the zlib transforms) are modelled
from the contracts the spec assigns to them; each such definition carries
a doc comment saying so.
-/

namespace Compression

/-! ## Characters, whitespace, list utilities -/

/-- ASCII whitespace characters matched by the JavaScript regex class
`\s` (the headers handled here are ASCII). -/
def isJsWs (c : Char) : Bool :=
  c == ' ' || c == '\t' || c == '\n' || c == '\r' || c == '\x0b' || c == '\x0c'

/-- Predicate `leadsWith pat l`: holds when `pat` occurs at the start of `l`. -/
def leadsWith : List Char → List Char → Bool
  | [], _ => true
  | _ :: _, [] => false
  | a :: as, b :: bs => a == b && leadsWith as bs

/-- Trim JS whitespace off both ends of a character list. -/
def trimWs (l : List Char) : List Char :=
  ((l.dropWhile isJsWs).reverse.dropWhile isJsWs).reverse

/-- Split a character list at every occurrence of `sep` (the separators
are dropped; `n` separators yield `n+1` segments). -/
def splitOnChar (sep : Char) : List Char → List (List Char)
  | [] => [[]]
  | c :: rest =>
    if c == sep then [] :: splitOnChar sep rest
    else
      match splitOnChar sep rest with
      | s :: ss => (c :: s) :: ss
      | [] => [[c]]

/-- Concatenation of a list of byte chunks. -/
def flattenBytes : List (List Nat) → List Nat
  | [] => []
  | b :: bs => b ++ flattenBytes bs

/-! ## The `no-transform` regular expression (src/index.js line 48)

`/(?:^|,)\s*?no-transform\s*?(?:,|$)/` — matched at a position that is
the start of the string or just after a comma: optional whitespace, the
literal token `no-transform`, optional whitespace, then a comma or the
end of the string. -/

/-- The character sequence of the literal token in the regex. -/
def ntTok : List Char := "no-transform".data

/-- Match the `\s*?no-transform\s*?(?:,|$)` part of the regex at the
start of `l`. -/
def tailMatch (l : List Char) : Bool :=
  let l1 := l.dropWhile isJsWs
  leadsWith ntTok l1 &&
    (let l2 := (l1.drop ntTok.length).dropWhile isJsWs
     l2.isEmpty || l2.head? == some ',')

/-- Try `tailMatch` just after each comma of `l`. -/
def afterComma : List Char → Bool
  | [] => false
  | c :: rest => (c == ',' && tailMatch rest) || afterComma rest

/-- Test function of the `no-transform` regex: a match at the start of
the string or after any comma. -/
def noTransformRe (l : List Char) : Bool :=
  tailMatch l || afterComma l

/-- Declarative reading of the regex, as the spec words it: the string
contains `no-transform` as a case-sensitive token bounded by a comma or
the start/end of the value, with optional surrounding whitespace. -/
def NoTransformToken (l : List Char) : Prop :=
  ∃ pre ws1 ws2 post,
    l = pre ++ ws1 ++ ntTok ++ ws2 ++ post
      ∧ (∀ c ∈ ws1, isJsWs c = true)
      ∧ (∀ c ∈ ws2, isJsWs c = true)
      ∧ (pre = [] ∨ ∃ p, pre = p ++ [','])
      ∧ (post = [] ∨ ∃ q, post = ',' :: q)

/-! ## Negotiator helpers (src/index.js lines 23-61) -/

/-- Source `shouldTransform` (src lines 47-54): permissive when the
Cache-Control header is absent (or the empty string, which is falsy in
JavaScript); otherwise forbids the transform exactly when the
`no-transform` regex matches the header value. -/
def shouldTransform (cacheControl : Option String) : Bool :=
  match cacheControl with
  | none => true
  | some s => s.isEmpty || !(noTransformRe s.data)

/-- Source `shouldCompress` (src lines 26-35): false when the Content-Type
header is absent, otherwise defers to the external compressibility
table, passed in as a pure predicate. -/
def shouldCompress (compressibleFn : String → Bool) (contentType : Option String) : Bool :=
  match contentType with
  | none => false
  | some t => compressibleFn t

/-- JavaScript chunk values that can reach `write`/`end`: `undefined`,
`null`, a `Buffer`, or a string (represented by its encoded bytes). -/
inductive JsChunk where
  | undef
  | jsNull
  | buf (data : List Nat)
  | str (data : List Nat)
deriving DecidableEq

/-- JavaScript truthiness of a chunk (`undefined`, `null` and the empty
string are falsy; a `Buffer` is an object, hence always truthy). -/
def truthy : JsChunk → Bool
  | .undef => false
  | .jsNull => false
  | .buf _ => true
  | .str d => !d.isEmpty

/-- Source `chunkLength` (src lines 37-45): 0 for a falsy chunk, else the
buffer length / string byte length. -/
def chunkLength : JsChunk → Nat
  | .undef => 0
  | .jsNull => 0
  | .buf d => d.length
  | .str d => d.length

/-- Source `toBuffer` (src lines 23-24): a `Buffer` passes through, a string is
encoded; `Buffer.from(undefined)` / `Buffer.from(null)` raise a
`TypeError`, modelled as the error case. -/
def toBuffer : JsChunk → Except Unit (List Nat)
  | .buf d => .ok d
  | .str d => .ok d
  | .undef => .error ()
  | .jsNull => .error ()

/-- The bytes a chunk contributes when handed to the raw transport. -/
def chunkBytes : JsChunk → List Nat
  | .buf d => d
  | .str d => d
  | .undef => []
  | .jsNull => []

/-- Comparison `Number(x) < threshold` for an optional numeric header value: absent
means `Number(undefined) = NaN`, and `NaN < t` is false. -/
def numLt : Option Nat → Nat → Bool
  | none, _ => false
  | some n, t => decide (n < t)

/-- The threshold check at the decision point (src lines 190-194):
`Number(res.getHeader("Content-Length")) < threshold || length < threshold`. -/
def belowThreshold (contentLength estLen : Option Nat) (threshold : Nat) : Bool :=
  numLt contentLength threshold || numLt estLen threshold

/-- The fixed server preference list (src line 219). -/
def serverPreference : List String := ["br", "gzip", "deflate"]

/-- Encoding selection (src lines 213-221): the preference list, with
`br` dropped unless brotli is enabled and supported, filtered by client
acceptability, first survivor or `"identity"`. -/
def selectEncoding (accept : String → Bool) (brotliEnabled : Bool) : String :=
  ((serverPreference.filter fun e => e != "br" || brotliEnabled).filter accept).head?.getD "identity"

/-- Source `res.getHeader("Content-Encoding") || "identity"` (src line 199):
an absent or empty header counts as `identity`. -/
def contentEncodingValue (contentEncoding : Option String) : String :=
  match contentEncoding with
  | none => "identity"
  | some e => if e.isEmpty then "identity" else e

/-! ## Configuration processing (src lines 71-90) -/

/-- The `brotli` option object: `enabled` is `none` when the field is
omitted (JavaScript `undefined`); `zlibOpts` only records whether a
`zlib` field was supplied. -/
structure BrotliOpts where
  enabled : Option Bool
  zlibOpts : Option Nat
deriving DecidableEq

/-- The options object: `brotli` is `none` when omitted; `threshold` is
the result of `bytes.parse` (`none` for null/unparseable). -/
structure Opts where
  brotli : Option BrotliOpts
  threshold : Option Nat
deriving DecidableEq

/-- Source `defaultThreshold` (src line 61). -/
def defaultThreshold : Nat := 1024

/-- Threshold resolution (src lines 84, 88-90): an unparseable/absent
threshold falls back to the default. -/
def thresholdOf (o : Opts) : Nat :=
  o.threshold.getD defaultThreshold

/-- Brotli participation (src lines 74, 78-80, 85-86):
`opts = options || {}`, `brotli = opts.brotli || { enabled: true }`,
`brotliEnabled = brotli.enabled && supportsBrotli`; an omitted `enabled`
field is `undefined`, which is falsy. -/
def brotliEnabledOf (options : Option Opts) (supportsBrotli : Bool) : Bool :=
  let o := options.getD ⟨none, none⟩
  let b := o.brotli.getD ⟨some true, none⟩
  (b.enabled.getD false) && supportsBrotli

/-! ## Headers and the vary helper -/

/-- The response-header state this middleware reads or writes. Headers
it never touches are collected in `other`. `contentLength` is an
already-numeric declared length (`Number` of it is the number itself;
an absent header gives `NaN`, covered by `Option`). -/
structure Headers where
  contentType : Option String
  contentLength : Option Nat
  contentEncoding : Option String
  cacheControl : Option String
  vary : List String
  other : List (String × String)
deriving DecidableEq

/-- Modelled from the spec: the external `vary` helper appends the field
to the Vary token list unless it is already listed, so the token is
never duplicated. -/
def varyAdd (v : List String) (tok : String) : List String :=
  if tok ∈ v then v else v ++ [tok]

/-! ## The stream interceptor state (src lines 92-268)

Per-response context: the request method, the client acceptability
predicate (the external `accepts` helper applied to the request), the
resolved threshold and brotli flag, the compressibility table, and the
encoder of the codec (an abstract byte transform). -/

structure Ctx where
  compressibleFn : String → Bool
  reqMethod : String
  acceptsEnc : String → Bool
  threshold : Nat
  brotliEnabled : Bool
  enc : List Nat → List Nat

/-- Observable state of the compressing transform: the bytes accepted so
far, whether it was ended, and the listeners registered on it (as
`(event, listener-id)` pairs). Its compressed output is `Ctx.enc` of the
accepted bytes, emitted to the raw transport when it ends. -/
structure StreamSt where
  inputBytes : List Nat
  sEnded : Bool
  regs : List (String × Nat)
deriving DecidableEq

/-- Modelled from the spec: the underlying raw transport. `wire` is the
body bytes placed on the wire, `rEnded` its end-of-stream flag, and
`regs` the listeners registered on it. Per the end-of-stream
contract the spec assigns to of ordinary transports, write/end after end report failure and
transfer no bytes. -/
structure RawSt where
  wire : List Nat
  rEnded : Bool
  regs : List (String × Nat)
deriving DecidableEq

/-- State of the decorated response: the closure variables of the
middleware (`ended`, `length` estimate, `listeners`, `stream`), whether
headers were finalized (`res._header`), the response headers, and the
raw transport. -/
structure St where
  ended : Bool
  headerWritten : Bool
  estLen : Option Nat
  listeners : Option (List (String × Nat))
  stream : Option StreamSt
  headers : Headers
  raw : RawSt
deriving DecidableEq

/-- Modelled from the spec: `_write` on the raw transport. After end it
reports failure and transfers nothing; otherwise it accepts the bytes of the chunk
 (`undefined`/`null` chunks are rejected by the transport). -/
def rawWrite (c : JsChunk) (r : RawSt) : Except Unit (Bool × RawSt) :=
  if r.rEnded then .ok (false, r)
  else
    match toBuffer c with
    | .error e => .error e
    | .ok b => .ok (true, { r with wire := r.wire ++ b })

/-- Modelled from the spec: `_end` on the raw transport; a repeated end
reports failure and transfers nothing. -/
def rawEnd (c : JsChunk) (r : RawSt) : Bool × RawSt :=
  if r.rEnded then (false, r)
  else (true, { r with wire := r.wire ++ chunkBytes c, rEnded := true })

/-- Modelled from the spec: `_on` on the raw transport records the
registration. -/
def rawOn (t : String) (lid : Nat) (r : RawSt) : RawSt :=
  { r with regs := r.regs ++ [(t, lid)] }

/-- Operation `stream.write` on the transform: accepts the bytes unless ended. -/
def streamWrite (b : List Nat) (st : StreamSt) : Bool × StreamSt :=
  if st.sEnded then (false, st)
  else (true, { st with inputBytes := st.inputBytes ++ b })

/-- Source `nocompress` (src lines 168-172): replay the buffered listeners onto
the raw transport via `_on`, then null the buffer. -/
def nocompress (s : St) : St :=
  { s with
    raw := { s.raw with regs := s.raw.regs ++ s.listeners.getD [] },
    listeners := none }

/-- The deferred decision (src lines 174-265), run once when response
headers are about to be flushed: filter, no-transform check, vary,
threshold, already-encoded, HEAD, negotiation; on success create the
transform, replay buffered listeners onto it, set Content-Encoding and
remove Content-Length. -/
def onRespHeaders (ctx : Ctx) (s : St) : St :=
  if !(shouldCompress ctx.compressibleFn s.headers.contentType) then nocompress s
  else if !(shouldTransform s.headers.cacheControl) then nocompress s
  else
    let s1 : St := { s with headers := { s.headers with vary := varyAdd s.headers.vary "Accept-Encoding" } }
    if belowThreshold s1.headers.contentLength s1.estLen ctx.threshold then nocompress s1
    else if contentEncodingValue s1.headers.contentEncoding != "identity" then nocompress s1
    else if ctx.reqMethod == "HEAD" then nocompress s1
    else
      let method := selectEncoding ctx.acceptsEnc ctx.brotliEnabled
      if method == "identity" then nocompress s1
      else
        { s1 with
          stream := some { inputBytes := [], sEnded := false, regs := s1.listeners.getD [] },
          headers := { s1.headers with contentEncoding := some method, contentLength := none } }

/-- The conjunction of the seven checks of `onRespHeaders`, in source
order; `onRespHeaders` creates a transform exactly when it holds. -/
def compressDecision (ctx : Ctx) (s : St) : Bool :=
  shouldCompress ctx.compressibleFn s.headers.contentType
    && shouldTransform s.headers.cacheControl
    && !(belowThreshold s.headers.contentLength s.estLen ctx.threshold)
    && (contentEncodingValue s.headers.contentEncoding == "identity")
    && !(ctx.reqMethod == "HEAD")
    && !(selectEncoding ctx.acceptsEnc ctx.brotliEnabled == "identity")

/-- Call `this.writeHead(this.statusCode)`: finalizes headers once; the
on-headers hook fires the decision at that moment. -/
def writeHead (ctx : Ctx) (s : St) : St :=
  if s.headerWritten then s
  else onRespHeaders ctx { s with headerWritten := true }

/-- Source `res.write` (src lines 114-126). -/
def write (ctx : Ctx) (c : JsChunk) (s : St) : Except Unit (Bool × St) :=
  if s.ended then .ok (false, s)
  else
    let s := writeHead ctx s
    match s.stream with
    | some st =>
      match toBuffer c with
      | .error e => .error e
      | .ok b =>
        let r := streamWrite b st
        .ok (r.1, { s with stream := some r.2 })
    | none =>
      match rawWrite c s.raw with
      | .error e => .error e
      | .ok r => .ok (r.1, { s with raw := r.2 })

/-- The length estimation inside `end` (src lines 135-137): when the
Content-Length header is falsy (absent, or the number 0), record the
length of the single final chunk. -/
def clFalsy : Option Nat → Bool
  | none => true
  | some n => n == 0

/-- Apply the estimation step of `end` to the state. -/
def estimateLen (c : JsChunk) (s : St) : St :=
  if clFalsy s.headers.contentLength then { s with estLen := some (chunkLength c) }
  else s

/-- End of the transform: all remaining compressed output (`enc` of the
accepted bytes) is emitted to the raw transport through the `data`
wiring, and the `end` wiring then finalizes the raw transport
(src lines 252-260). -/
def finishStream (ctx : Ctx) (st : StreamSt) (s : St) : St :=
  let st1 : StreamSt := { st with sEnded := true }
  if s.raw.rEnded then { s with stream := some st1 }
  else
    { s with
      stream := some st1,
      raw := { s.raw with wire := s.raw.wire ++ ctx.enc st1.inputBytes, rEnded := true } }

/-- Source `res.end` (src lines 128-151). -/
def endCall (ctx : Ctx) (c : JsChunk) (s : St) : Except Unit (Bool × St) :=
  if s.ended then .ok (false, s)
  else
    let s := if !s.headerWritten then writeHead ctx (estimateLen c s) else s
    match s.stream with
    | none =>
      let r := rawEnd c s.raw
      .ok (r.1, { s with raw := r.2 })
    | some st =>
      let s := { s with ended := true }
      if truthy c then
        match toBuffer c with
        | .error e => .error e
        | .ok b => .ok (true, finishStream ctx { st with inputBytes := st.inputBytes ++ b } s)
      else .ok (true, finishStream ctx st s)

/-- Source `res.on` (src lines 153-166): buffer only `drain` registrations made
while the buffer is live and no transform exists. -/
def onCall (t : String) (lid : Nat) (s : St) : St :=
  match s.listeners with
  | none => { s with raw := rawOn t lid s.raw }
  | some ls =>
    if t != "drain" then { s with raw := rawOn t lid s.raw }
    else
      match s.stream with
      | some st => { s with stream := some { st with regs := st.regs ++ [(t, lid)] } }
      | none => { s with listeners := some (ls ++ [(t, lid)]) }

/-- A state in which the first effective end-of-body signal has been
given: either the `ended` flag of the middleware is set (transform case), or
no transform exists and the raw transport was ended after headers were
finalized (pass-through case). -/
def endedState (s : St) : Bool :=
  s.ended || (s.stream.isNone && s.raw.rEnded && s.headerWritten)

/-- A sequence of `write` calls with buffer chunks. -/
def runWrites (ctx : Ctx) (cs : List (List Nat)) (s : St) : Except Unit St :=
  match cs with
  | [] => .ok s
  | b :: rest =>
    match write ctx (.buf b) s with
    | .error e => .error e
    | .ok r => runWrites ctx rest r.2

/-- Writes followed by a final `end` with a buffer chunk. -/
def runSession (ctx : Ctx) (cs : List (List Nat)) (last : List Nat) (s : St) :
    Except Unit (Bool × St) :=
  match runWrites ctx cs s with
  | .error e => .error e
  | .ok s1 => endCall ctx (.buf last) s1

/-! ## The external Accept-Encoding negotiation helper

Modelled from the spec: the `accepts` dependency is an external
collaborator, specified as RFC content-negotiation over the
`Accept-Encoding` value of the request — explicit tokens, wildcard, q-value exclusion.
Acceptance of a token depends only on the parsed entries, not on their
order in the header. -/

/-- One parsed `Accept-Encoding` entry: the token, and whether its
q-value is positive (absent q counts as positive). -/
structure AEntry where
  tok : List Char
  qpos : Bool
deriving DecidableEq

/-- A q-value string denotes a positive quality unless it spells zero
(`0`, `0.`, `0.0`, ...). -/
def qPos (v : List Char) : Bool :=
  !(v.all fun c => c == '0' || c == '.')

/-- Read the q parameter out of the `;`-separated parameters of an entry. -/
def parseQ (ps : List (List Char)) : Bool :=
  match ps.find? (fun p => leadsWith ['q', '='] p) with
  | some p => qPos (p.drop 2)
  | none => true

/-- Parse one comma-separated entry: token before the first `;`,
then the parameters. -/
def parseEntry (seg : List Char) : AEntry :=
  match splitOnChar ';' seg with
  | [] => { tok := [], qpos := true }
  | t :: ps => { tok := trimWs t, qpos := parseQ (ps.map trimWs) }

/-- Parse a whole `Accept-Encoding` header value. -/
def parseAcceptEnc (l : List Char) : List AEntry :=
  (splitOnChar ',' l).map parseEntry

/-- Modelled from the spec: is `enc` acceptable under the header value
`hdr`? Explicit entry wins; otherwise a wildcard entry; otherwise no. -/
def acceptsEncoding (hdr : String) (enc : String) : Bool :=
  let es := parseAcceptEnc hdr.data
  match es.find? (fun e => e.tok == enc.data) with
  | some e => e.qpos
  | none =>
    match es.find? (fun e => e.tok == ['*']) with
    | some e => e.qpos
    | none => false

/-! ## Sample configurations and states used by witnesses -/

/-- A context in which every check passes: compressible type, GET,
client accepts everything, brotli on, identity codec. -/
def sampleCtx : Ctx :=
  { compressibleFn := fun _ => true
    reqMethod := "GET"
    acceptsEnc := fun _ => true
    threshold := 1024
    brotliEnabled := true
    enc := fun l => l }

/-- Headers of a plain-text response with nothing else set. -/
def plainHeaders : Headers :=
  { contentType := some "text/plain"
    contentLength := none
    contentEncoding := none
    cacheControl := none
    vary := []
    other := [] }

/-- A fresh decorated response before any write. -/
def freshSt : St :=
  { ended := false
    headerWritten := false
    estLen := none
    listeners := some []
    stream := none
    headers := plainHeaders
    raw := { wire := [], rEnded := false, regs := [] } }

/-- A response right after the decision chose to compress: headers
finalized, an empty live transform. -/
def compressingSt : St :=
  { ended := false
    headerWritten := true
    estLen := none
    listeners := some []
    stream := some { inputBytes := [], sEnded := false, regs := [] }
    headers := { plainHeaders with contentEncoding := some "br", vary := ["Accept-Encoding"] }
    raw := { wire := [], rEnded := false, regs := [] } }

def noTransformSt : St :=
  { freshSt with headers := { plainHeaders with cacheControl := some "no-transform" } }

def endedSt : St := { compressingSt with ended := true }

/-! ## Claim C2 — encoding selection -/

/-- Claim C2: the encoding selected at decision time is the first
element of the fixed server-preference list `[br, gzip, deflate]`
(with `br` removed when brotli is unavailable or disabled) that the
client accepts, and `identity` when none survives; the choice depends
only on the acceptability predicate, so it is independent of the order
of the header tokens of the client: `gzip, deflate` and `deflate, gzip` both
yield `gzip`, and `br, gzip` with brotli enabled yields `br`. -/
theorem c2_select_encoding_server_preference :
    (∀ (accept : String → Bool) (be : Bool),
      selectEncoding accept be =
        if be && accept "br" then "br"
        else if accept "gzip" then "gzip"
        else if accept "deflate" then "deflate"
        else "identity")
    ∧ (∀ be, selectEncoding (acceptsEncoding "gzip, deflate") be = "gzip")
    ∧ (∀ be, selectEncoding (acceptsEncoding "deflate, gzip") be = "gzip")
    ∧ selectEncoding (acceptsEncoding "br, gzip") true = "br" := by
  refine ⟨?_, ?_, ?_, ?_⟩
  · intro accept be
    cases be <;>
      cases hbr : accept "br" <;>
        cases hg : accept "gzip" <;>
          cases hd : accept "deflate" <;>
            simp +decide [selectEncoding, serverPreference, List.filter, hbr, hg, hd]
  · intro be
    cases be <;> decide
  · intro be
    cases be <;> decide
  · decide

/-! ## Claim C3 — the threshold check -/

/-- Claim C3: the threshold check fails only when a known numeric
length (declared Content-Length, or the length estimated from the
single chunk of the first `end` call when headers were not yet
finalized) is strictly below the threshold; equality passes, and a
wholly unknown length never fails the check. The estimate is taken
exactly when the declared Content-Length is falsy. -/
theorem c3_threshold_strict_and_estimate :
    (∀ t, belowThreshold none none t = false)
    ∧ (∀ n t, belowThreshold (some n) none t = decide (n < t))
    ∧ (∀ n t, belowThreshold none (some n) t = decide (n < t))
    ∧ (∀ t, belowThreshold (some t) none t = false)
    ∧ (∀ c s, s.headers.contentLength = none →
        (estimateLen c s).estLen = some (chunkLength c))
    ∧ (∀ c s n, s.headers.contentLength = some n → n ≠ 0 →
        (estimateLen c s).estLen = s.estLen) := by
  refine ⟨?_, ?_, ?_, ?_, ?_, ?_⟩
  · intro t; rfl
  · intro n t; simp [belowThreshold, numLt]
  · intro n t; simp [belowThreshold, numLt]
  · intro t; simp [belowThreshold, numLt]
  · intro c s h; simp [estimateLen, clFalsy, h]
  · intro c s n h hn; simp [estimateLen, clFalsy, h, hn]

/-- Witness for C3 at concrete inputs: threshold 10 with declared
length 10 passes, declared 9 fails, and an estimation from a five-byte
chunk records length 5. -/
theorem c3_witness :
    belowThreshold (some 10) none 10 = false
    ∧ belowThreshold (some 9) none 10 = true
    ∧ (estimateLen (.str [104, 101, 108, 108, 111]) freshSt).estLen = some 5 := by
  refine ⟨?_, ?_, ?_⟩
  · exact (c3_threshold_strict_and_estimate.2.2.2.1) 10
  · have h := (c3_threshold_strict_and_estimate.2.1) 9 10
    simpa using h
  · exact (c3_threshold_strict_and_estimate.2.2.2.2.1) (.str [104, 101, 108, 108, 111]) freshSt rfl

/-! ## Claim C5 — brotli configuration -/

/-- Counterexample to claim C5 as stated: a configuration whose
`brotli` object supplies a `zlib` field but omits `enabled` keeps
Brotli out of negotiation even though the runtime supports it, because
`brotli.enabled && supportsBrotli` evaluates `undefined && true`, which
is falsy. -/
theorem c5_counterexample_brotli_opts_without_enabled :
    brotliEnabledOf (some { brotli := some { enabled := none, zlibOpts := some 1 },
                            threshold := none }) true = false := by
  decide

/-- Claim C5 as amended: Brotli participates in negotiation (when the
runtime supports it) when no options or no `brotli` object is supplied,
or when the supplied `brotli` object sets `enabled` to true; a supplied
`brotli` object whose `enabled` field is omitted or false excludes
Brotli, as does a runtime without support. A disabled flag keeps `br`
out of the selected encodings. -/
theorem c5_brotli_negotiation_amended :
    (∀ sup, brotliEnabledOf none sup = sup)
    ∧ (∀ sup t, brotliEnabledOf (some { brotli := none, threshold := t }) sup = sup)
    ∧ (∀ sup t z,
        brotliEnabledOf (some { brotli := some { enabled := some true, zlibOpts := z },
                                threshold := t }) sup = sup)
    ∧ (∀ sup t z,
        brotliEnabledOf (some { brotli := some { enabled := none, zlibOpts := z },
                                threshold := t }) sup = false)
    ∧ (∀ sup t z,
        brotliEnabledOf (some { brotli := some { enabled := some false, zlibOpts := z },
                                threshold := t }) sup = false)
    ∧ (∀ accept : String → Bool, (selectEncoding accept false == "br") = false) := by
  refine ⟨?_, ?_, ?_, ?_, ?_, ?_⟩
  · intro sup; cases sup <;> rfl
  · intro sup t; cases sup <;> rfl
  · intro sup t z; cases sup <;> rfl
  · intro sup t z; cases sup <;> rfl
  · intro sup t z; cases sup <;> rfl
  · intro accept
    cases hg : accept "gzip" <;>
      cases hd : accept "deflate" <;>
        simp +decide [selectEncoding, serverPreference, List.filter, hg, hd]

lemma leadsWith_iff (pat l : List Char) : leadsWith pat l = true ↔ ∃ r, l = pat ++ r := by
  induction pat generalizing l with
  | nil => simp [leadsWith]
  | cons a as ih =>
    cases l with
    | nil => simp [leadsWith]
    | cons b bs =>
      rw [leadsWith, Bool.and_eq_true, beq_iff_eq, ih]
      constructor
      · rintro ⟨rfl, r, rfl⟩
        exact ⟨r, rfl⟩
      · rintro ⟨r, hr⟩
        injection hr with h1 h2
        exact ⟨h1.symm, r, h2⟩

lemma leadsWith_self (a b : List Char) : leadsWith a (a ++ b) = true :=
  (leadsWith_iff a (a ++ b)).mpr ⟨b, rfl⟩

lemma dropWhile_append_all {p : Char → Bool} {a : List Char}
    (h : ∀ c ∈ a, p c = true) (b : List Char) :
    (a ++ b).dropWhile p = b.dropWhile p := by
  induction a with
  | nil => rfl
  | cons x xs ih =>
    rw [List.cons_append, List.dropWhile_cons, if_pos (h x (by simp))]
    exact ih (fun c hc => h c (by simp [hc]))

lemma dropWhile_cons_false {p : Char → Bool} {x : Char} (hx : p x = false) (l : List Char) :
    (x :: l).dropWhile p = x :: l := by
  rw [List.dropWhile_cons, hx]
  simp

lemma dropWhile_ntTok (X : List Char) : (ntTok ++ X).dropWhile isJsWs = ntTok ++ X := by
  have h : isJsWs 'n' = false := by decide
  simp [ntTok, List.dropWhile_cons, h]

lemma tailMatch_iff (l : List Char) :
    tailMatch l = true ↔
      ∃ ws1 ws2 post, l = ws1 ++ ntTok ++ ws2 ++ post
        ∧ (∀ c ∈ ws1, isJsWs c = true)
        ∧ (∀ c ∈ ws2, isJsWs c = true)
        ∧ (post = [] ∨ ∃ q, post = ',' :: q) := by
  constructor
  · intro h
    simp only [tailMatch, Bool.and_eq_true] at h
    obtain ⟨hlw, hend⟩ := h
    obtain ⟨r, hr⟩ := (leadsWith_iff _ _).mp hlw
    rw [hr, List.drop_left] at hend
    refine ⟨l.takeWhile isJsWs, r.takeWhile isJsWs, r.dropWhile isJsWs, ?_, ?_, ?_, ?_⟩
    · simp only [List.append_assoc]
      rw [List.takeWhile_append_dropWhile, ← hr, List.takeWhile_append_dropWhile]
    · exact fun c hc => List.mem_takeWhile_imp hc
    · exact fun c hc => List.mem_takeWhile_imp hc
    · rcases Bool.or_eq_true_iff.mp hend with hE | hH
      · left
        exact List.isEmpty_iff.mp hE
      · right
        have hsome : (r.dropWhile isJsWs).head? = some ',' := by
          exact beq_iff_eq.mp hH
        cases hD : r.dropWhile isJsWs with
        | nil => rw [hD] at hsome; simp at hsome
        | cons c q =>
          rw [hD] at hsome
          simp at hsome
          exact ⟨q, by rw [hsome]⟩
  · rintro ⟨ws1, ws2, post, rfl, h1, h2, hpost⟩
    simp only [tailMatch, Bool.and_eq_true, List.append_assoc]
    have hd1 : (ws1 ++ (ntTok ++ (ws2 ++ post))).dropWhile isJsWs = ntTok ++ (ws2 ++ post) := by
      rw [dropWhile_append_all h1, dropWhile_ntTok]
    have hd2 : (ws2 ++ post).dropWhile isJsWs = post.dropWhile isJsWs :=
      dropWhile_append_all h2 _
    refine ⟨?_, ?_⟩
    · rw [hd1]
      exact leadsWith_self _ _
    · rw [hd1, List.drop_left, hd2]
      rcases hpost with rfl | ⟨q, rfl⟩
      · simp
      · have hc : isJsWs ',' = false := by decide
        rw [dropWhile_cons_false hc]
        simp

lemma afterComma_iff (l : List Char) :
    afterComma l = true ↔ ∃ a b, l = a ++ ',' :: b ∧ tailMatch b = true := by
  induction l with
  | nil =>
    simp [afterComma]
  | cons c rest ih =>
    rw [afterComma, Bool.or_eq_true_iff, Bool.and_eq_true, beq_iff_eq, ih]
    constructor
    · rintro (⟨rfl, ht⟩ | ⟨a, b, rfl, ht⟩)
      · exact ⟨[], rest, rfl, ht⟩
      · exact ⟨c :: a, b, rfl, ht⟩
    · rintro ⟨a, b, hab, ht⟩
      cases a with
      | nil =>
        injection hab with hc hrest
        exact Or.inl ⟨hc, hrest ▸ ht⟩
      | cons x a' =>
        injection hab with hc hrest
        exact Or.inr ⟨a', b, hrest, ht⟩

lemma noTransformRe_iff (l : List Char) : noTransformRe l = true ↔ NoTransformToken l := by
  rw [noTransformRe, Bool.or_eq_true_iff, tailMatch_iff, afterComma_iff]
  constructor
  · rintro (⟨ws1, ws2, post, rfl, h1, h2, hpost⟩ | ⟨a, b, rfl, ht⟩)
    · exact ⟨[], ws1, ws2, post, rfl, h1, h2, Or.inl rfl, hpost⟩
    · obtain ⟨ws1, ws2, post, rfl, h1, h2, hpost⟩ := (tailMatch_iff b).mp ht
      refine ⟨a ++ [','], ws1, ws2, post, ?_, h1, h2, Or.inr ⟨a, rfl⟩, hpost⟩
      simp
  · rintro ⟨pre, ws1, ws2, post, rfl, h1, h2, hpre, hpost⟩
    rcases hpre with rfl | ⟨p, rfl⟩
    · left
      exact ⟨ws1, ws2, post, by simp, h1, h2, hpost⟩
    · right
      refine ⟨p, ws1 ++ ntTok ++ ws2 ++ post, by simp, ?_⟩
      exact (tailMatch_iff _).mpr ⟨ws1, ws2, post, rfl, h1, h2, hpost⟩

/-- Claim C7: the transform-allowed check returns false if and only if
the Cache-Control header is present and contains `no-transform` as a
case-sensitive token bounded by a comma or the start/end of the value,
with optional surrounding whitespace; when the header is absent the
check returns true; and when it returns false the decision point
neither creates a transform nor touches the headers (so no Vary token
and no compression). -/
theorem c7_no_transform_token :
    shouldTransform none = true
    ∧ (∀ s : String, (shouldTransform (some s) = false) ↔ NoTransformToken s.data)
    ∧ (∀ ctx st, shouldTransform st.headers.cacheControl = false →
        (onRespHeaders ctx st).stream = st.stream
        ∧ (onRespHeaders ctx st).headers = st.headers) := by
  refine ⟨rfl, ?_, ?_⟩
  · intro s
    constructor
    · intro h
      simp only [shouldTransform] at h
      rcases hE : s.isEmpty with _ | _
      · rw [hE] at h
        simp at h
        exact (noTransformRe_iff _).mp h
      · rw [hE] at h
        simp at h
    · intro h
      have hre : noTransformRe s.data = true := (noTransformRe_iff _).mpr h
      obtain ⟨pre, ws1, ws2, post, hEq, -, -, -, -⟩ := h
      have hne : s.data ≠ [] := by
        rw [hEq]
        intro hnil
        simp [ntTok] at hnil
      have hE : s.isEmpty = false := by
        rcases hIE : s.isEmpty with _ | _
        · rfl
        · exact absurd (by rw [(String.isEmpty_iff s).mp hIE]) hne
      simp [shouldTransform, hE, hre]
  · intro ctx st ht
    have h : onRespHeaders ctx st = nocompress st := by
      simp [onRespHeaders, ht]
    rw [h]
    exact ⟨rfl, rfl⟩

/-- Witness for C7: `Cache-Control: public, no-transform` contains the
token, and a response carrying `Cache-Control: no-transform` comes out
of the decision with stream and headers untouched. -/
theorem c7_witness :
    NoTransformToken "public, no-transform".data
    ∧ (onRespHeaders sampleCtx noTransformSt).stream = noTransformSt.stream
    ∧ (onRespHeaders sampleCtx noTransformSt).headers = noTransformSt.headers := by
  refine ⟨?_, ?_⟩
  · exact (c7_no_transform_token.2.1 "public, no-transform").mp (by decide)
  · exact c7_no_transform_token.2.2 sampleCtx noTransformSt (by decide)

/-- Claim C1: at the single deferred decision point the Vary header
gains the `Accept-Encoding` token if and only if both the content-type
compressibility filter and the transform-allowed check pass, exactly
once and unconditionally at that point, regardless of the outcome of
the threshold check, the already-encoded check, the HEAD check, or the
encoding negotiation (none of which appear in the equation below). -/
theorem c1_vary_iff_checks (ctx : Ctx) (s : St) :
    (onRespHeaders ctx s).headers.vary =
      (if shouldCompress ctx.compressibleFn s.headers.contentType
          && shouldTransform s.headers.cacheControl
       then varyAdd s.headers.vary "Accept-Encoding"
       else s.headers.vary)
    ∧ ("Accept-Encoding" ∉ s.headers.vary →
        (onRespHeaders ctx s).headers.vary.count "Accept-Encoding" =
          (if shouldCompress ctx.compressibleFn s.headers.contentType
              && shouldTransform s.headers.cacheControl then 1 else 0)) := by
  have hmain : (onRespHeaders ctx s).headers.vary =
      (if shouldCompress ctx.compressibleFn s.headers.contentType
          && shouldTransform s.headers.cacheControl
       then varyAdd s.headers.vary "Accept-Encoding"
       else s.headers.vary) := by
    cases hf : shouldCompress ctx.compressibleFn s.headers.contentType with
    | false => simp [onRespHeaders, hf, nocompress]
    | true =>
      cases ht : shouldTransform s.headers.cacheControl with
      | false => simp [onRespHeaders, hf, ht, nocompress]
      | true =>
        simp only [onRespHeaders, hf, ht, Bool.not_true, Bool.false_eq_true, if_false,
          Bool.and_self, if_true]
        split
        · rfl
        · split
          · rfl
          · split
            · rfl
            · split
              · rfl
              · rfl
  refine ⟨hmain, ?_⟩
  intro hnotin
  rw [hmain]
  split
  · rw [varyAdd, if_neg hnotin, List.count_append]
    rw [List.count_eq_zero.mpr hnotin]
    simp
  · exact List.count_eq_zero.mpr hnotin

/-- Witness for C1 at a concrete passing state: the token is counted
exactly once after the decision. -/
theorem c1_witness :
    "Accept-Encoding" ∉ freshSt.headers.vary
    ∧ (onRespHeaders sampleCtx freshSt).headers.vary.count "Accept-Encoding" = 1 := by
  refine ⟨by decide, ?_⟩
  have h := (c1_vary_iff_checks sampleCtx freshSt).2 (by decide)
  simpa using h

lemma onRespHeaders_cases (ctx : Ctx) (s : St) :
    onRespHeaders ctx s =
      (if compressDecision ctx s then
        { s with
          headers := { s.headers with
            vary := varyAdd s.headers.vary "Accept-Encoding",
            contentEncoding := some (selectEncoding ctx.acceptsEnc ctx.brotliEnabled),
            contentLength := none }
          stream := some { inputBytes := [], sEnded := false, regs := s.listeners.getD [] } }
      else if shouldCompress ctx.compressibleFn s.headers.contentType
              && shouldTransform s.headers.cacheControl then
        nocompress { s with headers := { s.headers with
          vary := varyAdd s.headers.vary "Accept-Encoding" } }
      else nocompress s) := by
  cases h1 : shouldCompress ctx.compressibleFn s.headers.contentType <;>
    cases h2 : shouldTransform s.headers.cacheControl <;>
      cases h3 : belowThreshold s.headers.contentLength s.estLen ctx.threshold <;>
        cases h4 : contentEncodingValue s.headers.contentEncoding == "identity" <;>
          cases h5 : ctx.reqMethod == "HEAD" <;>
            cases h6 : selectEncoding ctx.acceptsEnc ctx.brotliEnabled == "identity" <;>
              simp [onRespHeaders, compressDecision, bne, h1, h2, h3, h4, h5, h6]

/-- Claim C8: on the compress outcome the decision sets
Content-Encoding to the chosen token and removes Content-Length, and
modifies no other header apart from the Vary token recorded earlier
(content type, cache control and all untouched headers are preserved
verbatim); on the no-compression outcome it modifies neither
Content-Encoding nor Content-Length (nor any header but Vary). -/
theorem c8_header_frame (ctx : Ctx) (s : St) :
    (compressDecision ctx s = true →
      (onRespHeaders ctx s).headers =
        { contentType := s.headers.contentType
          contentLength := none
          contentEncoding := some (selectEncoding ctx.acceptsEnc ctx.brotliEnabled)
          cacheControl := s.headers.cacheControl
          vary := varyAdd s.headers.vary "Accept-Encoding"
          other := s.headers.other })
    ∧ (compressDecision ctx s = false →
        (onRespHeaders ctx s).headers.contentEncoding = s.headers.contentEncoding
        ∧ (onRespHeaders ctx s).headers.contentLength = s.headers.contentLength
        ∧ (onRespHeaders ctx s).headers.contentType = s.headers.contentType
        ∧ (onRespHeaders ctx s).headers.cacheControl = s.headers.cacheControl
        ∧ (onRespHeaders ctx s).headers.other = s.headers.other
        ∧ (onRespHeaders ctx s).stream = s.stream) := by
  constructor
  · intro h
    rw [onRespHeaders_cases, if_pos h]
  · intro h
    rw [onRespHeaders_cases, if_neg (by simp [h])]
    split
    · exact ⟨rfl, rfl, rfl, rfl, rfl, rfl⟩
    · exact ⟨rfl, rfl, rfl, rfl, rfl, rfl⟩

/-- Witness for C8 at a concrete compressing state: the full header
frame after the decision. -/
theorem c8_witness :
    (onRespHeaders sampleCtx freshSt).headers =
      { contentType := some "text/plain"
        contentLength := none
        contentEncoding := some "br"
        cacheControl := none
        vary := ["Accept-Encoding"]
        other := [] } := by
  have h := (c8_header_frame sampleCtx freshSt).1 (by decide)
  rw [h]
  decide

/-- Claim C9: listener buffering applies only to `drain`
registrations — any other event passes straight to the raw transport in
every state; a `drain` registration before the decision is appended to
the buffer; at decision time every buffered listener is replayed
exactly once, in registration order, onto the transform when
compression was chosen and onto the raw transport when it was declined;
and a `drain` registration after the decision is delegated directly (to
the transform if one exists, else to the raw transport) with no further
buffering. -/
theorem c9_drain_buffering :
    (∀ s t lid, t ≠ "drain" → onCall t lid s = { s with raw := rawOn t lid s.raw })
    ∧ (∀ s ls lid, s.listeners = some ls → s.stream = none →
        onCall "drain" lid s = { s with listeners := some (ls ++ [("drain", lid)]) })
    ∧ (∀ s ls st lid, s.listeners = some ls → s.stream = some st →
        onCall "drain" lid s =
          { s with stream := some { st with regs := st.regs ++ [("drain", lid)] } })
    ∧ (∀ s lid, s.listeners = none →
        onCall "drain" lid s = { s with raw := rawOn "drain" lid s.raw })
    ∧ (∀ ctx s ls, s.listeners = some ls →
        (compressDecision ctx s = true →
          (onRespHeaders ctx s).stream = some { inputBytes := [], sEnded := false, regs := ls }
          ∧ (onRespHeaders ctx s).raw.regs = s.raw.regs
          ∧ (onRespHeaders ctx s).listeners = some ls)
        ∧ (compressDecision ctx s = false →
          (onRespHeaders ctx s).raw.regs = s.raw.regs ++ ls
          ∧ (onRespHeaders ctx s).listeners = none
          ∧ (onRespHeaders ctx s).stream = s.stream)) := by
  refine ⟨?_, ?_, ?_, ?_, ?_⟩
  · intro s t lid ht
    cases hl : s.listeners with
    | none => simp [onCall, hl]
    | some ls => simp [onCall, hl, ht]
  · intro s ls lid hl hst
    simp [onCall, hl, hst]
  · intro s ls st lid hl hst
    simp [onCall, hl, hst]
  · intro s lid hl
    simp [onCall, hl]
  · intro ctx s ls hl
    constructor
    · intro h
      rw [onRespHeaders_cases, if_pos h]
      exact ⟨by simp [hl], rfl, by simp [hl]⟩
    · intro h
      rw [onRespHeaders_cases, if_neg (by simp [h])]
      split
      · exact ⟨by simp [nocompress, hl], rfl, rfl⟩
      · exact ⟨by simp [nocompress, hl], rfl, rfl⟩

/-- Witness for C9: a buffered `drain` registration, a pass-through
`close` registration, and the replay of the buffer onto the created
transform. -/
theorem c9_witness :
    onCall "drain" 7 freshSt = { freshSt with listeners := some [("drain", 7)] }
    ∧ onCall "close" 8 freshSt = { freshSt with raw := rawOn "close" 8 freshSt.raw }
    ∧ (onRespHeaders sampleCtx (onCall "drain" 7 freshSt)).stream =
        some { inputBytes := [], sEnded := false, regs := [("drain", 7)] } := by
  refine ⟨?_, ?_, ?_⟩
  · have h := c9_drain_buffering.2.1 freshSt [] 7 rfl rfl
    simpa using h
  · exact c9_drain_buffering.1 freshSt "close" 8 (by decide)
  · exact ((c9_drain_buffering.2.2.2.2 sampleCtx (onCall "drain" 7 freshSt) [("drain", 7)]
      (by decide)).1 (by decide)).1

lemma onRespHeaders_ended (ctx : Ctx) (s : St) : (onRespHeaders ctx s).ended = s.ended := by
  rw [onRespHeaders_cases]
  split
  · rfl
  · split <;> rfl

lemma onRespHeaders_headerWritten (ctx : Ctx) (s : St) :
    (onRespHeaders ctx s).headerWritten = s.headerWritten := by
  rw [onRespHeaders_cases]
  split
  · rfl
  · split <;> rfl

lemma onRespHeaders_rawEnded (ctx : Ctx) (s : St) :
    (onRespHeaders ctx s).raw.rEnded = s.raw.rEnded := by
  rw [onRespHeaders_cases]
  split
  · rfl
  · split <;> rfl

lemma estimateLen_ended (c : JsChunk) (s : St) : (estimateLen c s).ended = s.ended := by
  rw [estimateLen]
  split <;> rfl

lemma estimateLen_headerWritten (c : JsChunk) (s : St) :
    (estimateLen c s).headerWritten = s.headerWritten := by
  rw [estimateLen]
  split <;> rfl

lemma estimateLen_rawEnded (c : JsChunk) (s : St) :
    (estimateLen c s).raw.rEnded = s.raw.rEnded := by
  rw [estimateLen]
  split <;> rfl

lemma writeHead_ended (ctx : Ctx) (s : St) : (writeHead ctx s).ended = s.ended := by
  rw [writeHead]
  split
  · rfl
  · rw [onRespHeaders_ended]

lemma writeHead_headerWritten (ctx : Ctx) (s : St) :
    (writeHead ctx s).headerWritten = true := by
  rw [writeHead]
  split
  · assumption
  · rw [onRespHeaders_headerWritten]

lemma writeHead_rawEnded (ctx : Ctx) (s : St) :
    (writeHead ctx s).raw.rEnded = s.raw.rEnded := by
  rw [writeHead]
  split
  · rfl
  · rw [onRespHeaders_rawEnded]

lemma finishStream_ended (ctx : Ctx) (st : StreamSt) (s : St) :
    (finishStream ctx st s).ended = s.ended := by
  rw [finishStream]
  split <;> rfl

lemma endCall_writeHead (ctx : Ctx) (c : JsChunk) (s : St)
    (hE : s.ended = false) (hW : s.headerWritten = false) :
    endCall ctx c s = endCall ctx c (writeHead ctx (estimateLen c s)) := by
  have h1 : (writeHead ctx (estimateLen c s)).ended = false := by
    rw [writeHead_ended, estimateLen_ended, hE]
  have h3 : (writeHead ctx (estimateLen c s)).headerWritten = true :=
    writeHead_headerWritten ctx (estimateLen c s)
  conv_lhs => rw [endCall]
  conv_rhs => rw [endCall]
  simp [hE, hW, h1, h3]

lemma endedState_endCall (ctx : Ctx) (c : JsChunk) (s1 : St) (h1 : s1.ended = false)
    (h3 : s1.headerWritten = true) (h2 : s1.raw.rEnded = false) :
    ∀ r s', endCall ctx c s1 = .ok (r, s') → endedState s' = true := by
  intro r s' hcall
  simp only [endCall, h1, h3, Bool.not_true, Bool.false_eq_true, if_false] at hcall
  cases hs : s1.stream with
  | none =>
    rw [hs] at hcall
    simp [rawEnd, h2] at hcall
    rw [← hcall.2]
    simp [endedState, hs]
  | some st =>
    rw [hs] at hcall
    cases c with
    | undef =>
      simp [truthy] at hcall
      rw [← hcall.2]
      simp [endedState, finishStream_ended]
    | jsNull =>
      simp [truthy] at hcall
      rw [← hcall.2]
      simp [endedState, finishStream_ended]
    | buf d =>
      simp [truthy, toBuffer] at hcall
      rw [← hcall.2]
      simp [endedState, finishStream_ended]
    | str d =>
      simp [truthy, toBuffer] at hcall
      split at hcall <;>
        · simp at hcall
          rw [← hcall.2]
          simp [endedState, finishStream_ended]

/-- Claim C4: regardless of whether a compressing transform was
created, after the first effective end call every subsequent `write` or
`end` call returns false and leaves the decorated state (and hence the
wire) entirely unchanged; and any successful `end` from a live state
lands in such an ended state. -/
theorem c4_end_idempotent (ctx : Ctx) (c : JsChunk) (s : St) :
    (endedState s = true →
      write ctx c s = .ok (false, s) ∧ endCall ctx c s = .ok (false, s))
    ∧ (∀ r s', s.ended = false → s.raw.rEnded = false →
        endCall ctx c s = .ok (r, s') → endedState s' = true) := by
  constructor
  · intro h
    obtain ⟨sE, sH, sEst, sLs, sStr, sHd, sRaw⟩ := s
    simp [endedState] at h
    rcases h with hE | ⟨⟨hsN, hrE⟩, hhW⟩
    · constructor
      · simp [write, hE]
      · simp [endCall, hE]
    · cases hE : sE with
      | true =>
        constructor
        · simp [write, hE]
        · simp [endCall, hE]
      | false =>
        subst hsN
        subst hhW
        constructor
        · simp [write, writeHead, rawWrite, hE, hrE]
        · simp [endCall, rawEnd, hE, hrE]
  · intro r s' hE hrE hcall
    by_cases hW : s.headerWritten = true
    · exact endedState_endCall ctx c s hE hW hrE r s' hcall
    · have hW' : s.headerWritten = false := by
        cases hB : s.headerWritten
        · rfl
        · exact absurd hB hW
      rw [endCall_writeHead ctx c s hE hW'] at hcall
      refine endedState_endCall ctx c _ ?_ ?_ ?_ r s' hcall
      · rw [writeHead_ended, estimateLen_ended, hE]
      · exact writeHead_headerWritten _ _
      · rw [writeHead_rawEnded, estimateLen_rawEnded, hrE]

/-- Witness for C4: repeated calls on an ended compressing response
are failing no-ops, and a concrete first `end` lands in an ended
state. -/
theorem c4_witness :
    (write sampleCtx (.buf [1]) endedSt = .ok (false, endedSt)
      ∧ endCall sampleCtx (.buf [1]) endedSt = .ok (false, endedSt))
    ∧ endedState { compressingSt with
        ended := true,
        stream := some { inputBytes := [2], sEnded := true, regs := [] },
        raw := { wire := [2], rEnded := true, regs := [] } } = true := by
  constructor
  · exact (c4_end_idempotent sampleCtx (.buf [1]) endedSt).1 (by decide)
  · exact (c4_end_idempotent sampleCtx (.buf [2]) compressingSt).2 true _ rfl rfl (by rfl)

/-- Claim C10 (implicit): with a live transform, `write` with an
`undefined` or `null` chunk raises (the chunk is unconditionally
converted by `toBuffer` before reaching the transform), whereas `end`
with no chunk is guarded by truthiness and ends the transform without
conversion, and `write` after `end` returns false before reaching the
conversion. -/
theorem c10_write_nil_chunk_raises :
    (∀ ctx s st, s.ended = false → s.headerWritten = true → s.stream = some st →
        write ctx .undef s = .error () ∧ write ctx .jsNull s = .error ())
    ∧ (∀ ctx s st, s.ended = false → s.headerWritten = true → s.stream = some st →
        endCall ctx .undef s = .ok (true, finishStream ctx st { s with ended := true }))
    ∧ (∀ ctx st s, (finishStream ctx st s).stream = some { st with sEnded := true })
    ∧ (∀ ctx s c, s.ended = true → write ctx c s = .ok (false, s)) := by
  refine ⟨?_, ?_, ?_, ?_⟩
  · intro ctx s st hE hW hs
    constructor <;>
      · simp only [write, hE, Bool.false_eq_true, if_false]
        rw [writeHead, if_pos hW, hs]
        simp [toBuffer]
  · intro ctx s st hE hW hs
    simp only [endCall, hE, hW, Bool.not_true, Bool.false_eq_true, if_false]
    rw [hs]
    simp [truthy]
  · intro ctx st s
    rw [finishStream]
    split <;> rfl
  · intro ctx s c hE
    simp [write, hE]

/-- Witness for C10 on a concrete compressing response. -/
theorem c10_witness :
    write sampleCtx .undef compressingSt = .error ()
    ∧ endCall sampleCtx .undef compressingSt =
        .ok (true, finishStream sampleCtx { inputBytes := [], sEnded := false, regs := [] }
          { compressingSt with ended := true }) := by
  constructor
  · exact (c10_write_nil_chunk_raises.1 sampleCtx compressingSt
      { inputBytes := [], sEnded := false, regs := [] } rfl rfl rfl).1
  · exact c10_write_nil_chunk_raises.2.1 sampleCtx compressingSt
      { inputBytes := [], sEnded := false, regs := [] } rfl rfl rfl

lemma runWrites_ok (ctx : Ctx) (cs : List (List Nat)) :
    ∀ (s : St) (inp : List Nat) (rg : List (String × Nat)),
      s.ended = false → s.headerWritten = true →
      s.stream = some { inputBytes := inp, sEnded := false, regs := rg } →
      runWrites ctx cs s =
        .ok { s with
          stream := some { inputBytes := inp ++ flattenBytes cs, sEnded := false, regs := rg } } := by
  induction cs with
  | nil =>
    intro s inp rg hE hW hs
    simp only [runWrites, flattenBytes, List.append_nil]
    rw [← hs]
  | cons b rest ih =>
    intro s inp rg hE hW hs
    rw [runWrites]
    have hw : write ctx (.buf b) s =
        .ok (true, { s with
          stream := some { inputBytes := inp ++ b, sEnded := false, regs := rg } }) := by
      simp [write, writeHead, hE, hW, hs, toBuffer, streamWrite]
    rw [hw]
    have h2 := ih { s with
        stream := some { inputBytes := inp ++ b, sEnded := false, regs := rg } }
      (inp ++ b) rg hE hW rfl
    dsimp only
    rw [h2]
    simp [flattenBytes, List.append_assoc]

/-- Claim C6: on a response with a live compressing transform, a run
of `write` calls followed by `end` forwards every accepted byte to the
transform in acceptance order, and the entire transform output (the
codec encoding of the accepted bytes) is forwarded to the raw transport
in emission order; decompressing the wire bytes with a decoder that
inverts the encoder yields exactly the byte-for-byte concatenation of
the input chunks. -/
theorem c6_roundtrip (ctx : Ctx) (dec : List Nat → List Nat)
    (hinv : ∀ b, dec (ctx.enc b) = b)
    (cs : List (List Nat)) (last : List Nat) (s : St) (rg : List (String × Nat))
    (hE : s.ended = false) (hW : s.headerWritten = true)
    (hs : s.stream = some { inputBytes := [], sEnded := false, regs := rg })
    (hr : s.raw.rEnded = false) :
    ∃ s',
      runSession ctx cs last s = .ok (true, s')
      ∧ s'.stream = some { inputBytes := flattenBytes cs ++ last, sEnded := true, regs := rg }
      ∧ s'.raw.wire = s.raw.wire ++ ctx.enc (flattenBytes cs ++ last)
      ∧ s'.raw.rEnded = true
      ∧ dec (s'.raw.wire.drop s.raw.wire.length) = flattenBytes cs ++ last := by
  have hrw := runWrites_ok ctx cs s [] rg hE hW hs
  refine ⟨{ s with
      ended := true,
      stream := some { inputBytes := flattenBytes cs ++ last, sEnded := true, regs := rg },
      raw := { s.raw with
        wire := s.raw.wire ++ ctx.enc (flattenBytes cs ++ last),
        rEnded := true } }, ?_, by simp, by simp, by simp, ?_⟩
  · rw [runSession, hrw]
    simp only [endCall, hE, hW, Bool.not_true, Bool.false_eq_true, if_false]
    simp only [List.nil_append]
    simp [truthy, toBuffer, finishStream, hr]
  · simp only [List.drop_left]
    exact hinv _

/-- Witness for C6 with the identity codec: writes `[1,2]`, `[3]`,
then `end [4]` put exactly `[1,2,3,4]` on the wire. -/
theorem c6_witness :
    ∃ s', runSession sampleCtx [[1, 2], [3]] [4] compressingSt = .ok (true, s')
      ∧ s'.raw.wire = [1, 2, 3, 4] := by
  obtain ⟨s', h1, h2, h3, h4, h5⟩ := c6_roundtrip sampleCtx (fun l => l) (fun b => rfl)
    [[1, 2], [3]] [4] compressingSt [] rfl rfl rfl rfl
  refine ⟨s', h1, ?_⟩
  rw [h3]
  simp [sampleCtx, compressingSt, flattenBytes]

end Compression
